import Mathlib

/- Verification of the EngineSchematic grid-adjacency engine of `day-03/src/lib.rs`
(Advent of Code 2023 repository).

The embedding is shallow and executable:
* a grid row is a `List Char`; `&str` byte indices coincide with character indices
  because all inputs of this crate are ASCII;
* `str::lines` is embedded as `strLines` (split at a bare line feed or at a
  carriage return followed by a line feed, final line ending optional);
* a compiled regex is embedded by its semantic value.  The crate only compiles
  three patterns: the token pattern `\d+` (embedded as `digitRuns`, the maximal
  digit runs of a row, leftmost first, non-overlapping), and the two
  single-character-class patterns `[^\.^\d]` and `\*` (embedded as `Char → Bool`
  predicates; `Regex::is_match` on a slice then asks whether some character of
  the slice satisfies the predicate, and `find_iter` yields the width-1 spans of
  the satisfying characters, left to right).  `Regex::new`, which can fail, is
  embedded as an `Option` of the semantic value handed to `build`;
* fallible construction returns `Except BuildError`, so an error path produces
  no schematic value at all, exactly as the Rust `Result` does.
-/

/-- Drop a single trailing carriage return: the treatment `str::lines` applies
to the text standing before each line feed. -/
def stripTrailingCR (l : List Char) : List Char :=
  if l.getLast? = some '\r' then l.dropLast else l

/-- Worker for `strLines`: first argument is the remaining text, second the
characters of the current line accumulated in reverse. -/
def strLinesAux : List Char → List Char → List (List Char)
  | [], cur => if cur.isEmpty then [] else [cur.reverse]
  | '\n' :: rest, cur => stripTrailingCR cur.reverse :: strLinesAux rest []
  | c :: rest, cur => strLinesAux rest (c :: cur)

/-- Embedding of Rust's `content.lines()`: split at `\n` or `\r\n`, the final
line ending being optional, so an empty string yields no lines at all. -/
def strLines (content : String) : List (List Char) :=
  strLinesAux content.toList []

/-- `day-03/src/lib.rs` `BuildError`: a message wrapper implementing `Error`. -/
structure BuildError where
  msg : String
deriving DecidableEq, Repr

/-- `day-03/src/lib.rs` `get_enclosing_lines_indices`: the inclusive row band
`row ± 1` clipped to `[0, lines)`. -/
def get_enclosing_lines_indices (gear_line_index : Nat) (lines : Nat) : Nat × Nat :=
  (if gear_line_index = 0 then gear_line_index else gear_line_index - 1,
   if gear_line_index = lines - 1 then gear_line_index else gear_line_index + 1)

/-- `day-03/src/lib.rs` `get_match_boundary`: the match's column span widened by
one column on each side, clipped at 0 and at `line_length`. -/
def get_match_boundary (re_match : Nat × Nat) (line_length : Nat) : Nat × Nat :=
  (if re_match.1 = 0 then re_match.1 else re_match.1 - 1,
   if re_match.2 = line_length then re_match.2 else re_match.2 + 1)

/-- `day-03/src/lib.rs` `indexes_distance`: absolute difference of two indices. -/
def indexes_distance (indexes : Nat × Nat) : Nat :=
  if indexes.1 > indexes.2 then indexes.1 - indexes.2 else indexes.2 - indexes.1

/-- Embedding of the Rust string slice `&line[a..b]`. -/
def strSlice (line : List Char) (a b : Nat) : List Char :=
  (line.drop a).take (b - a)

/-- `Regex::is_match` of a compiled single-character-class pattern on a slice:
some character of the slice satisfies the class. -/
def isMatchIn (sym : Char → Bool) (slice : List Char) : Bool :=
  slice.any sym

/-- `find_iter` of a compiled single-character-class pattern on a row: the
columns of the satisfying characters, in increasing order (each match spans
`[col, col+1)`). -/
def gearMatches (sym : Char → Bool) (line : List Char) : List Nat :=
  (line.enum.filter (fun p => sym p.2)).map Prod.fst

/-- Worker for `digitRuns`: `i` is the column of the head of the remaining text,
`cur` the start column of the digit run currently open (if any). -/
def digitRunsAux : Nat → Option Nat → List Char → List (Nat × Nat)
  | i, some s0, [] => [(s0, i)]
  | _, none, [] => []
  | i, cur, c :: rest =>
    if c.isDigit then digitRunsAux (i + 1) (some (cur.getD i)) rest
    else
      match cur with
      | some s0 => (s0, i) :: digitRunsAux (i + 1) none rest
      | none => digitRunsAux (i + 1) none rest

/-- Semantic value of the compiled token pattern `\d+`: the maximal digit runs
of a row as half-open column spans, leftmost first, non-overlapping — the
matches `Regex::find_iter` yields for `\d+`. -/
def digitRuns (line : List Char) : List (Nat × Nat) :=
  digitRunsAux 0 none line

/-- Semantic value of the compiled symbol pattern `[^\.^\d]` the binaries and
tests pass to `build`: a negated character class whose members are the escaped
dot `\.`, the literal caret `^` (a caret past the first position of a class is
literal), and the digit class `\d` (read on the ASCII range, all inputs of the
crate being ASCII).  So a character matches iff it is none of those three. -/
def engineSymbol (c : Char) : Bool :=
  !(c == '.' || c == '^' || c.isDigit)

/-- Semantic value of the compiled pairing pattern `\*`: the literal star. -/
def starSymbol (c : Char) : Bool :=
  c == '*'

/-- `day-03/src/lib.rs` `PartNumber`: a confirmed numeric token.  The Rust value
stores the `Match`, which carries its span and its text; the embedding stores
the span as `num_match` and the matched text explicitly. -/
structure PartNumber where
  line_index : Nat
  line_length : Nat
  num_match : Nat × Nat
  text : List Char
deriving DecidableEq, Repr

/-- `PartNumber::from_match` (the text is the slice the `Match` carries). -/
def PartNumber.from_match (num_match : Nat × Nat) (line_index line_length : Nat)
    (line : List Char) : PartNumber :=
  ⟨line_index, line_length, num_match, strSlice line num_match.1 num_match.2⟩

/-- `PartNumber::start`. -/
def PartNumber.start (pn : PartNumber) : Nat :=
  pn.num_match.1

/-- `PartNumber::end`. -/
def PartNumber.stop (pn : PartNumber) : Nat :=
  pn.num_match.2

/-- `PartNumber::content`. -/
def PartNumber.content (pn : PartNumber) : List Char :=
  pn.text

/-- `PartNumber::has_gear_symbol`: the gear match `[gstart, gend)` on row
`gear_line_index` is adjacent to this token iff the row distance is at most one
and the gear span is contained in the token's expanded window. -/
def PartNumber.has_gear_symbol (pn : PartNumber) (gstart gend gear_line_index : Nat) : Bool :=
  let boundary := get_match_boundary pn.num_match pn.line_length
  decide (indexes_distance (gear_line_index, pn.line_index) ≤ 1) &&
    decide (boundary.1 ≤ gstart) && decide (gend ≤ boundary.2)

/-- `day-03/src/lib.rs` `EngineSchematic`. -/
structure EngineSchematic where
  lines : List (List Char)
  line_length : Nat
  part_numbers : List (List PartNumber)
deriving DecidableEq, Repr

namespace EngineSchematic

/-- `EngineSchematic::validate_content_lines`: split the content into lines,
fail on zero lines or on a line whose length differs from the first line's. -/
def validate_content_lines (content : String) :
    Except BuildError (Nat × List (List Char)) :=
  match strLines content with
  | [] => .error ⟨"input must not be empty"⟩
  | first :: rest =>
    if rest.all (fun line => line.length == first.length) then
      .ok (first.length, first :: rest)
    else
      .error ⟨"lines in input does not have equal length"⟩

/-- `EngineSchematic::line_of_match_has_symbol`: on the token's own row, test
the single character at each end of the boundary for a symbol match. -/
def line_of_match_has_symbol (s : EngineSchematic) (symbol_regex : Char → Bool)
    (line_index : Nat) (boundary : Nat × Nat) : Bool :=
  let line := s.lines.getD line_index []
  let num_match_has_symbol_before := isMatchIn symbol_regex (strSlice line boundary.1 (boundary.1 + 1))
  let num_match_has_symbol_after := isMatchIn symbol_regex (strSlice line (boundary.2 - 1) boundary.2)
  num_match_has_symbol_before || num_match_has_symbol_after

/-- `EngineSchematic::line_before_match_has_symbol`: on the row above (when it
exists), test the whole boundary window. -/
def line_before_match_has_symbol (s : EngineSchematic) (symbol_regex : Char → Bool)
    (line_index : Nat) (boundary : Nat × Nat) : Bool :=
  decide (line_index ≠ 0) &&
    isMatchIn symbol_regex (strSlice (s.lines.getD (line_index - 1) []) boundary.1 boundary.2)

/-- `EngineSchematic::line_after_match_has_symbol`: on the row below (when it
exists), test the whole boundary window. -/
def line_after_match_has_symbol (s : EngineSchematic) (symbol_regex : Char → Bool)
    (line_index : Nat) (boundary : Nat × Nat) : Bool :=
  decide (line_index ≠ s.lines.length - 1) &&
    isMatchIn symbol_regex (strSlice (s.lines.getD (line_index + 1) []) boundary.1 boundary.2)

/-- `EngineSchematic::match_is_part_number`. -/
def match_is_part_number (s : EngineSchematic) (symbol_regex : Char → Bool)
    (num_match : Nat × Nat) (line_index : Nat) : Bool :=
  let match_boundary := get_match_boundary num_match s.line_length
  s.line_of_match_has_symbol symbol_regex line_index match_boundary ||
    s.line_before_match_has_symbol symbol_regex line_index match_boundary ||
    s.line_after_match_has_symbol symbol_regex line_index match_boundary

/-- The row buckets `EngineSchematic::set_part_numbers` pushes: one bucket per
row, holding the row's token matches that pass `match_is_part_number`, in
discovery order. -/
def catalog (s : EngineSchematic) (tok : List Char → List (Nat × Nat))
    (symbol_regex : Char → Bool) : List (List PartNumber) :=
  (List.range s.lines.length).map (fun line_index =>
    ((tok (s.lines.getD line_index [])).filter
        (fun num_match => s.match_is_part_number symbol_regex num_match line_index)).map
      (fun num_match =>
        PartNumber.from_match num_match line_index s.line_length (s.lines.getD line_index [])))

/-- `EngineSchematic::set_part_numbers`. -/
def set_part_numbers (s : EngineSchematic) (tok : List Char → List (Nat × Nat))
    (symbol_regex : Char → Bool) : EngineSchematic :=
  { s with part_numbers := s.catalog tok symbol_regex }

/-- `EngineSchematic::build`.  The two compiled patterns arrive as the `Option`
results of `Regex::new`; `none` is a pattern that failed to compile. -/
def build (content : String) (part_number_pattern : Option (List Char → List (Nat × Nat)))
    (symbol_pattern : Option (Char → Bool)) : Except BuildError EngineSchematic :=
  match validate_content_lines content with
  | .error e => .error e
  | .ok (line_length, lines) =>
    match part_number_pattern with
    | none => .error ⟨"invalid part_number_pattern"⟩
    | some tok =>
      match symbol_pattern with
      | none => .error ⟨"invalid symbol_regex"⟩
      | some sym =>
        .ok (set_part_numbers ⟨lines, line_length, []⟩ tok sym)

/-- The inner loop of `EngineSchematic::get_number_pair_for_gear` over one row
bucket: push the adjacent tokens, breaking out of the row as soon as a token
starts strictly after the gear match's end. -/
def scanRowForGear (gstart gend gear_line_index : Nat) : List PartNumber → List PartNumber
  | [] => []
  | pn :: rest =>
    if gend < pn.start then []
    else if pn.has_gear_symbol gstart gend gear_line_index then
      pn :: scanRowForGear gstart gend gear_line_index rest
    else
      scanRowForGear gstart gend gear_line_index rest

/-- `EngineSchematic::get_number_pair_for_gear`: collect the adjacent tokens of
the enclosing row band and return them iff there are exactly two. -/
def get_number_pair_for_gear (s : EngineSchematic) (gstart gend gear_line_index : Nat) :
    Option (PartNumber × PartNumber) :=
  let bounds := get_enclosing_lines_indices gear_line_index s.lines.length
  let band := (s.part_numbers.drop bounds.1).take (bounds.2 + 1 - bounds.1)
  let gear_ratios := (band.map (scanRowForGear gstart gend gear_line_index)).flatten
  match gear_ratios with
  | [a, b] => some (a, b)
  | _ => none

/-- `EngineSchematic::get_gear_ratios_pairs`: per row, the pairs obtained from
the row's gear matches in discovery order. -/
def get_gear_ratios_pairs (s : EngineSchematic) (gear_symbol_regex : Char → Bool) :
    List (List (PartNumber × PartNumber)) :=
  (List.range s.lines.length).map (fun gear_line_index =>
    (gearMatches gear_symbol_regex (s.lines.getD gear_line_index [])).filterMap
      (fun col => s.get_number_pair_for_gear col (col + 1) gear_line_index))

/-- The inner loop of the gear scan with the early-exit break removed: every
token of the row is tested. -/
def scanRowForGearNoBreak (gstart gend gear_line_index : Nat)
    (row : List PartNumber) : List PartNumber :=
  row.filter (fun pn => pn.has_gear_symbol gstart gend gear_line_index)

/-- `get_number_pair_for_gear` with the early-exit break removed. -/
def get_number_pair_for_gear_no_break (s : EngineSchematic)
    (gstart gend gear_line_index : Nat) : Option (PartNumber × PartNumber) :=
  let bounds := get_enclosing_lines_indices gear_line_index s.lines.length
  let band := (s.part_numbers.drop bounds.1).take (bounds.2 + 1 - bounds.1)
  let gear_ratios := (band.map (scanRowForGearNoBreak gstart gend gear_line_index)).flatten
  match gear_ratios with
  | [a, b] => some (a, b)
  | _ => none

/-- `get_gear_ratios_pairs` with the early-exit break removed. -/
def get_gear_ratios_pairs_no_break (s : EngineSchematic) (gear_symbol_regex : Char → Bool) :
    List (List (PartNumber × PartNumber)) :=
  (List.range s.lines.length).map (fun gear_line_index =>
    (gearMatches gear_symbol_regex (s.lines.getD gear_line_index [])).filterMap
      (fun col => s.get_number_pair_for_gear_no_break col (col + 1) gear_line_index))

end EngineSchematic

/-- The invariants `Regex::find_iter` guarantees for the token matches of one
row, for any pattern whose matches are nonempty (as `\d+`'s are): match spans
are nonempty, end within the row, and successive starts strictly increase. -/
def LawfulTokenizer (tok : List Char → List (Nat × Nat)) : Prop :=
  ∀ line, (tok line).Pairwise (fun a b => a.1 < b.1) ∧
    ∀ m ∈ tok line, m.1 < m.2 ∧ m.2 ≤ line.length

/-- The canonical three-row, 140-column example grid of the part-number test. -/
def day03PartContent : String :=
  "............409..........784...578...802......64..............................486.248..............177....................369...............\n.....-939..........524#...#....=.......*.........+......90.................................76..615..-..@.....961..........$.......*.........\n............951*........................736...955..258....*.....253@.............210.10.....=...*.......776...*....&...............600..274."

/-- The companion three-row, 140-column example grid of the gear-ratio test. -/
def day03GearContent : String :=
  "..561..517..994*248.596......&...$.....196.701.....*............217...*....160........240..+....265..471..76............509..15........245..\n.........*...............615.801.837......*......661.181...707......613...-.......495......959..........*....#...........*....$.............\n.....-...107............@...............42.69.......*........*787................70*....$............853.....808..249.160.......725......151"

/-- Every span `digitRunsAux` emits starts at or after the open run's start (or
at or after the cursor when no run is open). -/
lemma digitRunsAux_start_le (l : List Char) : ∀ (i : Nat) (cur : Option Nat),
    (∀ s0, cur = some s0 → s0 ≤ i) →
    ∀ p ∈ digitRunsAux i cur l, cur.getD i ≤ p.1 := by
  induction l with
  | nil =>
    intro i cur hcur p hp
    cases cur with
    | none => simp [digitRunsAux] at hp
    | some s0 =>
      simp [digitRunsAux] at hp
      simp [hp]
  | cons c rest ih =>
    intro i cur hcur p hp
    cases cur with
    | none =>
      cases hd : c.isDigit with
      | true =>
        simp [digitRunsAux, hd] at hp
        have := ih (i + 1) (some i) (by intro t ht; simp at ht; omega) p hp
        simp at this ⊢
        omega
      | false =>
        simp [digitRunsAux, hd] at hp
        have := ih (i + 1) none (by simp) p hp
        simp at this ⊢
        omega
    | some s0 =>
      have hs0 : s0 ≤ i := hcur s0 rfl
      cases hd : c.isDigit with
      | true =>
        simp [digitRunsAux, hd] at hp
        have := ih (i + 1) (some s0) (by intro t ht; simp at ht; omega) p hp
        simpa using this
      | false =>
        simp [digitRunsAux, hd] at hp
        rcases hp with h | h
        · simp [h]
        · have := ih (i + 1) none (by simp) p h
          simp at this ⊢
          omega

/-- Every span `digitRunsAux` emits is nonempty and ends within the text. -/
lemma digitRunsAux_bounds (l : List Char) : ∀ (i : Nat) (cur : Option Nat),
    (∀ s0, cur = some s0 → s0 < i) →
    ∀ p ∈ digitRunsAux i cur l, p.1 < p.2 ∧ p.2 ≤ i + l.length := by
  induction l with
  | nil =>
    intro i cur hcur p hp
    cases cur with
    | none => simp [digitRunsAux] at hp
    | some s0 =>
      simp [digitRunsAux] at hp
      have := hcur s0 rfl
      simp [hp]
      omega
  | cons c rest ih =>
    intro i cur hcur p hp
    cases cur with
    | none =>
      cases hd : c.isDigit with
      | true =>
        simp [digitRunsAux, hd] at hp
        have := ih (i + 1) (some i) (by intro t ht; simp at ht; omega) p hp
        simp at this ⊢
        omega
      | false =>
        simp [digitRunsAux, hd] at hp
        have := ih (i + 1) none (by simp) p hp
        simp at this ⊢
        omega
    | some s0 =>
      have hs0 : s0 < i := hcur s0 rfl
      cases hd : c.isDigit with
      | true =>
        simp [digitRunsAux, hd] at hp
        have := ih (i + 1) (some s0) (by intro t ht; simp at ht; omega) p hp
        simp at this ⊢
        omega
      | false =>
        simp [digitRunsAux, hd] at hp
        rcases hp with h | h
        · simp [h]
          omega
        · have := ih (i + 1) none (by simp) p h
          simp at this ⊢
          omega

/-- Inside every span `digitRunsAux` emits, the characters at or past the
cursor are digits. -/
lemma digitRunsAux_digits (l : List Char) : ∀ (i : Nat) (cur : Option Nat),
    ∀ p ∈ digitRunsAux i cur l, ∀ k, i ≤ k → p.1 ≤ k → k < p.2 →
      (l.getD (k - i) ' ').isDigit = true := by
  induction l with
  | nil =>
    intro i cur p hp k hk1 hk2 hk3
    cases cur with
    | none => simp [digitRunsAux] at hp
    | some s0 =>
      simp [digitRunsAux] at hp
      rw [hp] at hk3
      omega
  | cons c rest ih =>
    intro i cur p hp k hk1 hk2 hk3
    cases cur with
    | none =>
      cases hd : c.isDigit with
      | true =>
        simp [digitRunsAux, hd] at hp
        rcases Nat.lt_or_ge k (i + 1) with hk | hk
        · have hki : k - i = 0 := by omega
          rw [hki]
          simpa using hd
        · have := ih (i + 1) (some i) p hp k hk hk2 hk3
          have hki : k - i = (k - (i + 1)) + 1 := by omega
          rw [hki, List.getD_cons_succ]
          exact this
      | false =>
        simp [digitRunsAux, hd] at hp
        have hq1 : i + 1 ≤ p.1 := by
          have := digitRunsAux_start_le rest (i + 1) none (by simp) p hp
          simpa using this
        have := ih (i + 1) none p hp k (by omega) hk2 hk3
        have hki : k - i = (k - (i + 1)) + 1 := by omega
        rw [hki, List.getD_cons_succ]
        exact this
    | some s0 =>
      cases hd : c.isDigit with
      | true =>
        simp [digitRunsAux, hd] at hp
        rcases Nat.lt_or_ge k (i + 1) with hk | hk
        · have hki : k - i = 0 := by omega
          rw [hki]
          simpa using hd
        · have := ih (i + 1) (some s0) p hp k hk hk2 hk3
          have hki : k - i = (k - (i + 1)) + 1 := by omega
          rw [hki, List.getD_cons_succ]
          exact this
      | false =>
        simp [digitRunsAux, hd] at hp
        rcases hp with h | h
        · rw [h] at hk3
          omega
        · have hq1 : i + 1 ≤ p.1 := by
            have := digitRunsAux_start_le rest (i + 1) none (by simp) p h
            simpa using this
          have := ih (i + 1) none p h k (by omega) hk2 hk3
          have hki : k - i = (k - (i + 1)) + 1 := by omega
          rw [hki, List.getD_cons_succ]
          exact this

/-- The spans `digitRunsAux` emits have strictly increasing starts. -/
lemma digitRunsAux_pairwise (l : List Char) : ∀ (i : Nat) (cur : Option Nat),
    (∀ s0, cur = some s0 → s0 ≤ i) →
    (digitRunsAux i cur l).Pairwise (fun a b => a.1 < b.1) := by
  induction l with
  | nil =>
    intro i cur hcur
    cases cur <;> simp [digitRunsAux]
  | cons c rest ih =>
    intro i cur hcur
    cases cur with
    | none =>
      cases hd : c.isDigit with
      | true =>
        simp only [digitRunsAux, hd, if_true]
        exact ih (i + 1) (some ((none : Option Nat).getD i)) (by intro t ht; simp at ht; omega)
      | false =>
        simp only [digitRunsAux, hd, Bool.false_eq_true, if_false]
        exact ih (i + 1) none (by simp)
    | some s0 =>
      have hs0 : s0 ≤ i := hcur s0 rfl
      cases hd : c.isDigit with
      | true =>
        simp only [digitRunsAux, hd, if_true]
        exact ih (i + 1) (some ((some s0 : Option Nat).getD i)) (by intro t ht; simp at ht; omega)
      | false =>
        simp only [digitRunsAux, hd, Bool.false_eq_true, if_false]
        refine List.pairwise_cons.mpr ⟨?_, ih (i + 1) none (by simp)⟩
        intro q hq
        have := digitRunsAux_start_le rest (i + 1) none (by simp) q hq
        simp at this
        omega

/-- `digitRuns` enjoys the `find_iter` invariants. -/
theorem digitRuns_lawful : LawfulTokenizer digitRuns := by
  intro line
  constructor
  · exact digitRunsAux_pairwise line 0 none (by simp)
  · intro m hm
    have := digitRunsAux_bounds line 0 none (by simp) m hm
    simpa using this

/-- Every character inside a `digitRuns` span is a digit. -/
lemma digitRuns_digits (line : List Char) : ∀ m ∈ digitRuns line, ∀ k, m.1 ≤ k → k < m.2 →
    (line.getD k ' ').isDigit = true := by
  intro m hm k h1 h2
  have := digitRunsAux_digits line 0 none m hm k (Nat.zero_le k) h1 h2
  simpa using this

/-- `catalog` never reads the `part_numbers` field. -/
lemma EngineSchematic.catalog_part_numbers_irrel (lines : List (List Char)) (len : Nat)
    (pns pns' : List (List PartNumber)) (tok : List Char → List (Nat × Nat)) (sym : Char → Bool) :
    EngineSchematic.catalog ⟨lines, len, pns⟩ tok sym =
      EngineSchematic.catalog ⟨lines, len, pns'⟩ tok sym := rfl

/-- Elimination of a successful `validate_content_lines`. -/
lemma EngineSchematic.validate_ok {content : String} {len : Nat} {ls : List (List Char)}
    (hv : EngineSchematic.validate_content_lines content = .ok (len, ls)) :
    strLines content = ls ∧ ls ≠ [] ∧ (∀ l ∈ ls, l.length = len) := by
  unfold EngineSchematic.validate_content_lines at hv
  cases hsl : strLines content with
  | nil => rw [hsl] at hv; simp at hv
  | cons first rest =>
    rw [hsl] at hv
    have hv' : (if (rest.all fun line => line.length == first.length) = true then
        (Except.ok (first.length, first :: rest) : Except BuildError (Nat × List (List Char)))
      else .error ⟨"lines in input does not have equal length"⟩) = .ok (len, ls) := hv
    by_cases hall : (rest.all fun line => line.length == first.length) = true
    · rw [if_pos hall] at hv'
      simp at hv'
      obtain ⟨h1, h2⟩ := hv'
      subst h1 h2
      refine ⟨rfl, by simp, ?_⟩
      intro l hl
      rcases List.mem_cons.mp hl with h | h
      · rw [h]
      · have := (List.all_eq_true.mp hall) l h
        simpa using this
    · rw [if_neg hall] at hv'
      simp at hv'

/-- Elimination of a successful `build` with compiled patterns: the stored rows
are the validated lines, there is at least one, all have the first line's
length, and the stored buckets are the `set_part_numbers` catalog. -/
theorem EngineSchematic.build_ok {content : String} {tok : List Char → List (Nat × Nat)}
    {sym : Char → Bool} {s : EngineSchematic}
    (hb : EngineSchematic.build content (some tok) (some sym) = .ok s) :
    s.lines = strLines content ∧ s.lines ≠ [] ∧
      (∀ l ∈ s.lines, l.length = s.line_length) ∧
      s.part_numbers = s.catalog tok sym := by
  unfold EngineSchematic.build at hb
  cases hv : EngineSchematic.validate_content_lines content with
  | error e => rw [hv] at hb; simp at hb
  | ok p =>
    rw [hv] at hb
    obtain ⟨len, ls⟩ := p
    simp only [] at hb
    have hs : s = EngineSchematic.set_part_numbers ⟨ls, len, []⟩ tok sym := by
      cases hb
      rfl
    obtain ⟨h1, h2, h3⟩ := EngineSchematic.validate_ok hv
    subst hs
    exact ⟨h1.symm, h2, h3, rfl⟩

/-- The catalog has one bucket per row. -/
lemma EngineSchematic.catalog_length (s : EngineSchematic) (tok : List Char → List (Nat × Nat))
    (sym : Char → Bool) : (s.catalog tok sym).length = s.lines.length := by
  simp [EngineSchematic.catalog]

/-- The bucket of row `i`. -/
lemma EngineSchematic.catalog_bucket (s : EngineSchematic) (tok : List Char → List (Nat × Nat))
    (sym : Char → Bool) (i : Nat) (hi : i < s.lines.length) :
    (s.catalog tok sym).getD i [] =
      ((tok (s.lines.getD i [])).filter (fun m => s.match_is_part_number sym m i)).map
        (fun m => PartNumber.from_match m i s.line_length (s.lines.getD i [])) := by
  unfold EngineSchematic.catalog
  rw [List.getD_eq_getElem?_getD, List.getElem?_map, List.getElem?_range hi]
  rfl

/-- With a lawful tokenizer every bucket is sorted by strictly increasing
token start. -/
lemma EngineSchematic.catalog_sorted (s : EngineSchematic) (tok : List Char → List (Nat × Nat))
    (sym : Char → Bool) (hlaw : LawfulTokenizer tok) :
    ∀ r ∈ s.catalog tok sym, r.Pairwise (fun a b => a.start < b.start) := by
  intro r hr
  unfold EngineSchematic.catalog at hr
  rcases List.mem_map.mp hr with ⟨i, _, hfi⟩
  rw [← hfi, List.pairwise_map]
  exact ((hlaw _).1).sublist (List.filter_sublist _)

/-- Every member of the bucket of row `i` carries `line_index = i`. -/
lemma EngineSchematic.catalog_line_index (s : EngineSchematic)
    (tok : List Char → List (Nat × Nat)) (sym : Char → Bool) :
    ∀ i, i < s.lines.length → ∀ pn ∈ (s.catalog tok sym).getD i [], pn.line_index = i := by
  intro i hi pn hpn
  rw [EngineSchematic.catalog_bucket s tok sym i hi] at hpn
  rcases List.mem_map.mp hpn with ⟨m, _, hfm⟩
  rw [← hfm]
  rfl

/-- Buckets of earlier rows hold tokens of strictly smaller `line_index`. -/
lemma EngineSchematic.catalog_cross (s : EngineSchematic)
    (tok : List Char → List (Nat × Nat)) (sym : Char → Bool) :
    (s.catalog tok sym).Pairwise
      (fun r1 r2 => ∀ x ∈ r1, ∀ y ∈ r2, x.line_index < y.line_index) := by
  unfold EngineSchematic.catalog
  rw [List.pairwise_map]
  refine (List.pairwise_lt_range _).imp ?_
  intro i j hij
  intro x hx y hy
  rcases List.mem_map.mp hx with ⟨m, _, hfm⟩
  rcases List.mem_map.mp hy with ⟨m', _, hfm'⟩
  rw [← hfm, ← hfm']
  exact hij

/-- A token starting strictly after the gear match's end cannot be adjacent to
a nonempty gear match: its clipped window begins past the gear start. -/
lemma has_gear_symbol_false_of_start_gt (pn : PartNumber) (gstart gend gear_line_index : Nat)
    (hne : gstart < gend) (hgt : gend < pn.start) :
    pn.has_gear_symbol gstart gend gear_line_index = false := by
  have h1 : pn.num_match.1 ≠ 0 := by
    unfold PartNumber.start at hgt
    omega
  have h2 : ¬(pn.num_match.1 - 1 ≤ gstart) := by
    unfold PartNumber.start at hgt
    omega
  simp [PartNumber.has_gear_symbol, get_match_boundary, h1, h2]

/-- On a row bucket sorted by token start, the early-exit scan agrees with the
unconditional filter, for any nonempty gear match. -/
lemma scanRowForGear_eq_filter (gstart gend gear_line_index : Nat) (hne : gstart < gend) :
    ∀ row : List PartNumber, row.Pairwise (fun a b => a.start ≤ b.start) →
      EngineSchematic.scanRowForGear gstart gend gear_line_index row =
        row.filter (fun pn => pn.has_gear_symbol gstart gend gear_line_index) := by
  intro row
  induction row with
  | nil => intro _; rfl
  | cons pn rest ih =>
    intro hp
    rcases List.pairwise_cons.mp hp with ⟨hhead, htail⟩
    unfold EngineSchematic.scanRowForGear
    by_cases h1 : gend < pn.start
    · rw [if_pos h1]
      symm
      rw [List.filter_eq_nil_iff]
      intro a ha
      rcases List.mem_cons.mp ha with h | h
      · rw [h, has_gear_symbol_false_of_start_gt pn gstart gend gear_line_index hne h1]
        simp
      · have hle := hhead a h
        rw [has_gear_symbol_false_of_start_gt a gstart gend gear_line_index hne (by omega)]
        simp
    · rw [if_neg h1, List.filter_cons]
      by_cases h2 : pn.has_gear_symbol gstart gend gear_line_index = true
      · simp [h2, ih htail]
      · simp [Bool.eq_false_iff.mpr h2, ih htail]

/-- Filtering distributes over flattening. -/
lemma flatten_map_filter {α : Type} (p : α → Bool) : ∀ L : List (List α),
    (L.map (List.filter p)).flatten = L.flatten.filter p := by
  intro L
  induction L with
  | nil => rfl
  | cons a t ih => rw [List.map_cons, List.flatten_cons, List.flatten_cons, List.filter_append, ih]

/-- On a successfully built schematic the early-exit band scan collects exactly
the adjacent tokens of the band, in band order. -/
lemma EngineSchematic.collect_eq_filter {content : String}
    {tok : List Char → List (Nat × Nat)} {sym : Char → Bool} {s : EngineSchematic}
    (hb : EngineSchematic.build content (some tok) (some sym) = .ok s)
    (hlaw : LawfulTokenizer tok) (gstart gend gear_line_index : Nat) (hne : gstart < gend)
    (a k : Nat) :
    (((s.part_numbers.drop a).take k).map
        (EngineSchematic.scanRowForGear gstart gend gear_line_index)).flatten =
      ((s.part_numbers.drop a).take k).flatten.filter
        (fun pn => pn.has_gear_symbol gstart gend gear_line_index) := by
  rw [← flatten_map_filter]
  congr 1
  apply List.map_congr_left
  intro r hr
  apply scanRowForGear_eq_filter gstart gend gear_line_index hne
  have hr' : r ∈ s.part_numbers := List.mem_of_mem_drop (List.mem_of_mem_take hr)
  obtain ⟨_, _, _, hpn⟩ := EngineSchematic.build_ok hb
  rw [hpn] at hr'
  exact (EngineSchematic.catalog_sorted s tok sym hlaw r hr').imp Nat.le_of_lt

set_option maxRecDepth 100000 in
/-- C1: building an `EngineSchematic` from the canonical 3-row, 140-character
example grid with the token pattern `\d+` and the symbol pattern `[^\.^\d]`,
then flattening the `part_numbers()` row buckets in order, yields exactly the
texts 784, 578, 802, 177, 369, 939, 524, 90, 76, 615, 961, 951, 736, 955, 253,
776, 600 — in particular 409, 64, 486, 248, 210, 10 and 274 are excluded. -/
theorem part_numbers_on_canonical_grid :
    Except.map (fun s => s.part_numbers.flatten.map (fun pn => String.mk pn.text))
      (EngineSchematic.build day03PartContent (some digitRuns) (some engineSymbol)) =
    .ok ["784", "578", "802", "177", "369", "939", "524", "90", "76", "615", "961",
      "951", "736", "955", "253", "776", "600"] := by
  rfl

set_option maxRecDepth 100000 in
/-- C2: running `get_gear_ratios_pairs` with the pairing pattern `\*` on the
schematic built from the companion 3-row, 140-character grid and flattening the
row buckets in order yields exactly the pairs (994,248), (517,107), (471,853),
(509,160), (661,181), (707,787), (495,70), in that order. -/
theorem gear_pairs_on_companion_grid :
    Except.map (fun s => (s.get_gear_ratios_pairs starSymbol).flatten.map
        (fun pr => (String.mk pr.1.text, String.mk pr.2.text)))
      (EngineSchematic.build day03GearContent (some digitRuns) (some engineSymbol)) =
    .ok [("994", "248"), ("517", "107"), ("471", "853"), ("509", "160"),
      ("661", "181"), ("707", "787"), ("495", "70")] := by
  rfl

/-- The schematic `build` constructs from the sole content `"\n"`: one row of
width zero. -/
def zeroWidthSchematic : EngineSchematic :=
  ⟨[[]], 0, [[]]⟩

/-- C7 counterexample: `build` accepts the content `"\n"` (a single empty
line), producing a schematic whose stored `line_length` is 0 — so a grid with
`width = 0` is accepted, contradicting the claimed `width > 0` invariant. -/
theorem zero_width_grid_accepted :
    EngineSchematic.build "\n" (some digitRuns) (some engineSymbol) = .ok zeroWidthSchematic ∧
      zeroWidthSchematic.line_length = 0 := by
  exact ⟨rfl, rfl⟩

/-- The validation check of `validate_content_lines` over the tail is
equivalent to all lines (first included) having the first line's length. -/
lemma all_lengths_iff (first : List Char) (rest : List (List Char)) :
    (rest.all fun line => line.length == first.length) = true ↔
      ∀ l ∈ first :: rest, l.length = first.length := by
  rw [List.all_eq_true]
  constructor
  · intro h l hl
    rcases List.mem_cons.mp hl with h1 | h1
    · rw [h1]
    · simpa using h l h1
  · intro h l hl
    simpa using h l (List.mem_cons_of_mem _ hl)

/-- C7 (amended): every successfully built schematic has a strictly positive
row count, and every stored row's length equals the stored `line_length`.  The
claimed `width > 0` part is dropped: `build` accepts a zero-width grid
(`zero_width_grid_accepted`). -/
theorem build_grid_invariant_amended (content : String)
    (tokOpt : Option (List Char → List (Nat × Nat))) (symOpt : Option (Char → Bool))
    (s : EngineSchematic) (hb : EngineSchematic.build content tokOpt symOpt = .ok s) :
    0 < s.lines.length ∧ ∀ l ∈ s.lines, l.length = s.line_length := by
  cases tokOpt with
  | none =>
    unfold EngineSchematic.build at hb
    cases hv : EngineSchematic.validate_content_lines content with
    | error e => rw [hv] at hb; simp at hb
    | ok p => rw [hv] at hb; obtain ⟨len, ls⟩ := p; simp at hb
  | some tok =>
    cases symOpt with
    | none =>
      unfold EngineSchematic.build at hb
      cases hv : EngineSchematic.validate_content_lines content with
      | error e => rw [hv] at hb; simp at hb
      | ok p => rw [hv] at hb; obtain ⟨len, ls⟩ := p; simp at hb
    | some sym =>
      obtain ⟨_, h2, h3, _⟩ := EngineSchematic.build_ok hb
      exact ⟨List.length_pos.mpr h2, h3⟩

/-- The schematic `build` constructs from the content `"1*"`. -/
def sampleSchematic1 : EngineSchematic :=
  ⟨[['1', '*']], 2, [[⟨0, 2, (0, 1), ['1']⟩]]⟩

/-- Witness for `build_grid_invariant_amended` at the concrete content `"1*"`. -/
theorem build_grid_invariant_amended_witness : 0 < sampleSchematic1.lines.length :=
  (build_grid_invariant_amended "1*" (some digitRuns) (some engineSymbol)
    sampleSchematic1 rfl).1

/-- C9 counterexample: the caret is neither a digit nor the filler '.', yet the
compiled class `[^\.^\d]` does not match it — the second caret of the class is
a literal member, so the claimed "neither digit nor dot" reading fails at '^'. -/
theorem caret_not_engine_symbol :
    engineSymbol '^' = false ∧ ('^').isDigit = false ∧ ('^' : Char) ≠ '.' := by
  decide

/-- C9 (amended): the symbol pattern `[^\.^\d]` matches a character `c` iff `c`
is neither a digit, nor '.', nor '^' (a caret past the first position of a
character class is a literal member, here of the negated class). -/
theorem engine_symbol_characterization (c : Char) :
    engineSymbol c = true ↔ (c.isDigit = false ∧ c ≠ '.' ∧ c ≠ '^') := by
  unfold engineSymbol
  cases hd : c.isDigit <;> by_cases h1 : c = '.' <;> by_cases h2 : c = '^' <;>
    simp [h1, h2, hd]

/-- The one-row schematic on the row "5.", used to exhibit the same-row check
reading the token's own first character. -/
def flankSchematic : EngineSchematic :=
  ⟨[['5', '.']], 2, []⟩

/-- C8 counterexample: take the symbol pattern `\d` (every digit) on the row
"5.".  The token (0,1) starts at column 0, so by the claim the left test should
contribute false regardless of the symbol pattern and the same-row result
should depend only on the in-bounds right flank '.' (which does not match).
Instead the check applies the left test to the token's own first character '5'
and returns true. -/
theorem same_row_check_reads_token_char :
    digitRuns ['5', '.'] = [(0, 1)] ∧
    EngineSchematic.line_of_match_has_symbol flankSchematic Char.isDigit 0
      (get_match_boundary (0, 1) 2) = true ∧
    isMatchIn Char.isDigit (strSlice ['5', '.'] 0 1) = true ∧
    isMatchIn Char.isDigit (strSlice ['5', '.'] 1 2) = false := by
  decide

/-- C5: `build` returns an error iff the content has zero lines, or some line's
length differs from the first line's, or either pattern failed to compile.
The result type `Except BuildError EngineSchematic` makes construction
all-or-nothing: an error path carries a `BuildError` only, never any partially
built schematic. -/
theorem build_error_characterization (content : String)
    (tokOpt : Option (List Char → List (Nat × Nat))) (symOpt : Option (Char → Bool)) :
    (∃ e, EngineSchematic.build content tokOpt symOpt = .error e) ↔
      (strLines content = [] ∨
        (∃ l ∈ strLines content, l.length ≠ ((strLines content).headD []).length) ∨
        tokOpt = none ∨ symOpt = none) := by
  unfold EngineSchematic.build EngineSchematic.validate_content_lines
  cases hsl : strLines content with
  | nil => simp
  | cons first rest =>
    by_cases hall : (rest.all fun line => line.length == first.length) = true
    · cases tokOpt with
      | none => simp [hall]
      | some tok =>
        cases symOpt with
        | none => simp [hall]
        | some sym =>
          simp [hall]
          intro x hx
          simpa using (List.all_eq_true.mp hall) x hx
    · have hall' : (rest.all fun line => line.length == first.length) = false :=
        Bool.eq_false_iff.mpr hall
      simp [hall']
      left
      rw [List.all_eq_true] at hall
      push_neg at hall
      obtain ⟨x, hx, hne⟩ := hall
      exact ⟨x, hx, by simpa using hne⟩

/-- A width-1 slice is the singleton of the character it covers. -/
lemma strSlice_singleton (l : List Char) (k : Nat) (hk : k < l.length) :
    strSlice l k (k + 1) = [l.getD k ' '] := by
  unfold strSlice
  have h1 : k + 1 - k = 1 := by omega
  rw [h1, List.drop_eq_getElem_cons hk, List.getD_eq_getElem?_getD,
    List.getElem?_eq_getElem hk]
  rfl

/-- The repository's symbol pattern `[^\.^\d]` rejects every digit. -/
lemma digit_not_engine_symbol : ∀ c : Char, c.isDigit = true → engineSymbol c = false := by
  intro c h
  simp [engineSymbol, h]

/-- The two-token final `match` of `get_number_pair_for_gear` succeeds exactly
on a two-element collection, returning its elements in order. -/
lemma pair_match_eq_some {l : List PartNumber} {pr : PartNumber × PartNumber}
    (h : (match l with
      | [a, b] => some (a, b)
      | _ => none) = some pr) :
    l = [pr.1, pr.2] := by
  rcases l with _ | ⟨a, _ | ⟨b, _ | ⟨c, t⟩⟩⟩
  · simp at h
  · simp at h
  · simp at h
    rw [← h]
  · simp at h

/-- C3: for every built schematic and every gear occurrence `[col, col+1)` on a
row `grow` of the grid, `get_number_pair_for_gear` returns some pair iff
exactly two tokens of the part catalog within the enclosing row band
`[max(0,grow-1), min(height-1,grow+1)]` satisfy the adjacency test (row
distance at most 1 and the gear span contained in the token's expanded
window), the returned pair being exactly those two tokens in band order;
with fewer than two or three or more adjacent tokens it returns none. -/
theorem gear_pair_iff_exactly_two_adjacent (content : String)
    (tok : List Char → List (Nat × Nat)) (sym : Char → Bool) (s : EngineSchematic)
    (hb : EngineSchematic.build content (some tok) (some sym) = .ok s)
    (hlaw : LawfulTokenizer tok) (grow col : Nat) (_hrow : grow < s.lines.length) :
    s.get_number_pair_for_gear col (col + 1) grow =
      (match ((s.part_numbers.drop (get_enclosing_lines_indices grow s.lines.length).1).take
            ((get_enclosing_lines_indices grow s.lines.length).2 + 1 -
              (get_enclosing_lines_indices grow s.lines.length).1)).flatten.filter
          (fun pn => decide (indexes_distance (grow, pn.line_index) ≤ 1) &&
            decide ((get_match_boundary pn.num_match pn.line_length).1 ≤ col) &&
            decide (col + 1 ≤ (get_match_boundary pn.num_match pn.line_length).2)) with
      | [a, b] => some (a, b)
      | _ => none) := by
  simp only [EngineSchematic.get_number_pair_for_gear]
  rw [EngineSchematic.collect_eq_filter hb hlaw col (col + 1) grow (Nat.lt_succ_self col)]
  rfl

/-- The schematic `build` constructs from the content `"12*34"`. -/
def sampleSchematic2 : EngineSchematic :=
  ⟨[['1', '2', '*', '3', '4']], 5,
    [[⟨0, 5, (0, 2), ['1', '2']⟩, ⟨0, 5, (3, 5), ['3', '4']⟩]]⟩

/-- Witness for `gear_pair_iff_exactly_two_adjacent` at the gear of `"12*34"`:
its two flanking tokens are collected as the pair. -/
theorem gear_pair_iff_exactly_two_adjacent_witness :
    EngineSchematic.get_number_pair_for_gear sampleSchematic2 2 3 0 =
      some (⟨0, 5, (0, 2), ['1', '2']⟩, ⟨0, 5, (3, 5), ['3', '4']⟩) := by
  have h := gear_pair_iff_exactly_two_adjacent "12*34" digitRuns engineSymbol
    sampleSchematic2 rfl digitRuns_lawful 0 2 (by decide)
  rw [h]
  rfl

/-- C4: the early-exit break in the gear-pairing inner scan is a pure
performance short-circuit: on every built schematic, with every gear-symbol
pattern, `get_gear_ratios_pairs` returns output identical to the variant with
the break removed.  The break is sound because per-row token starts increase
and a nonempty gear match is never adjacent to a token starting strictly after
its end; the break leaves the outer band loop untouched, so later band rows
are still scanned. -/
theorem gear_scan_break_is_refinement (content : String)
    (tok : List Char → List (Nat × Nat)) (sym : Char → Bool) (s : EngineSchematic)
    (hb : EngineSchematic.build content (some tok) (some sym) = .ok s)
    (hlaw : LawfulTokenizer tok) (g : Char → Bool) :
    s.get_gear_ratios_pairs g = s.get_gear_ratios_pairs_no_break g := by
  unfold EngineSchematic.get_gear_ratios_pairs EngineSchematic.get_gear_ratios_pairs_no_break
  apply List.map_congr_left
  intro gli _
  apply List.filterMap_congr
  intro col _
  simp only [EngineSchematic.get_number_pair_for_gear,
    EngineSchematic.get_number_pair_for_gear_no_break]
  rw [EngineSchematic.collect_eq_filter hb hlaw col (col + 1) gli (Nat.lt_succ_self col)]
  have hnb : EngineSchematic.scanRowForGearNoBreak col (col + 1) gli =
      List.filter (fun pn => pn.has_gear_symbol col (col + 1) gli) := rfl
  rw [hnb, flatten_map_filter]

/-- Witness for `gear_scan_break_is_refinement` on the `"12*34"` schematic. -/
theorem gear_scan_break_is_refinement_witness :
    sampleSchematic2.get_gear_ratios_pairs starSymbol =
      sampleSchematic2.get_gear_ratios_pairs_no_break starSymbol :=
  gear_scan_break_is_refinement "12*34" digitRuns engineSymbol sampleSchematic2 rfl
    digitRuns_lawful starSymbol

/-- The flattened band of a built catalog is strictly increasing in the
lexicographic `(line_index, start)` order. -/
lemma EngineSchematic.band_pairwise_lex {content : String}
    {tok : List Char → List (Nat × Nat)} {sym : Char → Bool} {s : EngineSchematic}
    (hb : EngineSchematic.build content (some tok) (some sym) = .ok s)
    (hlaw : LawfulTokenizer tok) (a k : Nat) :
    ((s.part_numbers.drop a).take k).flatten.Pairwise
      (fun x y => x.line_index < y.line_index ∨
        (x.line_index = y.line_index ∧ x.start < y.start)) := by
  obtain ⟨_, _, _, hpn⟩ := EngineSchematic.build_ok hb
  rw [List.pairwise_flatten]
  constructor
  · intro r hr
    have hr' : r ∈ s.part_numbers := List.mem_of_mem_drop (List.mem_of_mem_take hr)
    rw [hpn] at hr'
    unfold EngineSchematic.catalog at hr'
    rcases List.mem_map.mp hr' with ⟨i, _, hfi⟩
    have hline : ∀ x ∈ r, x.line_index = i := by
      intro x hx
      rw [← hfi] at hx
      rcases List.mem_map.mp hx with ⟨m, _, hfm⟩
      rw [← hfm]
      rfl
    have hsort : r.Pairwise (fun x y => x.start < y.start) := by
      rw [← hfi, List.pairwise_map]
      exact ((hlaw _).1).sublist (List.filter_sublist _)
    refine hsort.imp_of_mem ?_
    intro x y hx hy hxy
    right
    exact ⟨by rw [hline x hx, hline y hy], hxy⟩
  · have hcross := EngineSchematic.catalog_cross s tok sym
    rw [← hpn] at hcross
    have hsub : List.Sublist ((s.part_numbers.drop a).take k) s.part_numbers :=
      ((s.part_numbers.drop a).take_sublist k).trans (s.part_numbers.drop_sublist a)
    refine (hcross.sublist hsub).imp ?_
    intro r1 r2 h x hx y hy
    exact Or.inl (h x hx y hy)

/-- C10: on every built schematic and with every gear-symbol pattern, the two
part numbers inside each returned pair are distinct and appear in row-major
scan order: the first strictly precedes the second in lexicographic
`(line_index, start)` order. -/
theorem gear_pair_elements_ordered (content : String)
    (tok : List Char → List (Nat × Nat)) (sym : Char → Bool) (s : EngineSchematic)
    (hb : EngineSchematic.build content (some tok) (some sym) = .ok s)
    (hlaw : LawfulTokenizer tok) (g : Char → Bool) :
    ∀ pr ∈ (s.get_gear_ratios_pairs g).flatten,
      pr.1 ≠ pr.2 ∧ (pr.1.line_index < pr.2.line_index ∨
        (pr.1.line_index = pr.2.line_index ∧ pr.1.start < pr.2.start)) := by
  intro pr hpr
  rcases List.mem_flatten.mp hpr with ⟨row, hrow, hpr2⟩
  unfold EngineSchematic.get_gear_ratios_pairs at hrow
  rcases List.mem_map.mp hrow with ⟨gli, _, hfrow⟩
  rw [← hfrow] at hpr2
  rcases List.mem_filterMap.mp hpr2 with ⟨col, _, hsome⟩
  simp only [EngineSchematic.get_number_pair_for_gear] at hsome
  rw [EngineSchematic.collect_eq_filter hb hlaw col (col + 1) gli (Nat.lt_succ_self col)]
    at hsome
  have hl := pair_match_eq_some hsome
  have hpw : List.Pairwise
      (fun x y => x.line_index < y.line_index ∨
        (x.line_index = y.line_index ∧ x.start < y.start)) [pr.1, pr.2] := by
    rw [← hl]
    exact (EngineSchematic.band_pairwise_lex hb hlaw _ _).sublist (List.filter_sublist _)
  have hrel := (List.pairwise_cons.mp hpw).1 pr.2 (by simp)
  refine ⟨?_, hrel⟩
  intro he
  rcases hrel with h | ⟨_, h⟩
  · rw [he] at h
    exact absurd h (lt_irrefl _)
  · rw [he] at h
    exact absurd h (lt_irrefl _)

/-- The schematic `build` constructs from the content `"1*\n2."`. -/
def sampleSchematic3 : EngineSchematic :=
  ⟨[['1', '*'], ['2', '.']], 2,
    [[⟨0, 2, (0, 1), ['1']⟩], [⟨1, 2, (0, 1), ['2']⟩]]⟩

/-- Witness for `gear_pair_elements_ordered`: the cross-row pair of the
`"1*\n2."` schematic is distinct and lexicographically ordered. -/
theorem gear_pair_elements_ordered_witness :
    (⟨0, 2, (0, 1), ['1']⟩ : PartNumber) ≠ ⟨1, 2, (0, 1), ['2']⟩ ∧
      ((⟨0, 2, (0, 1), ['1']⟩ : PartNumber).line_index <
          (⟨1, 2, (0, 1), ['2']⟩ : PartNumber).line_index ∨
        ((⟨0, 2, (0, 1), ['1']⟩ : PartNumber).line_index =
            (⟨1, 2, (0, 1), ['2']⟩ : PartNumber).line_index ∧
          (⟨0, 2, (0, 1), ['1']⟩ : PartNumber).start <
            (⟨1, 2, (0, 1), ['2']⟩ : PartNumber).start)) :=
  gear_pair_elements_ordered "1*\n2." digitRuns engineSymbol sampleSchematic3 rfl
    digitRuns_lawful starSymbol (⟨0, 2, (0, 1), ['1']⟩, ⟨1, 2, (0, 1), ['2']⟩) (by decide)

/-- C6: on every built schematic no query steps out of bounds.  All checks are
total functions in this embedding; the runtime safety of the Rust original is
the statement that every index they compute lies inside the validated grid:
for every row and every token match located on it, the match and its clipped
boundary lie within `[0, line_length]` with start below end, the one-character
same-row probes `[b.1, b.1+1)` and `[b.2-1, b.2)` stay within the row, the
guarded neighbour-row indices stay within `[0, height)`, and the gear band of
every grid row is a well-formed index range of the bucket list — so
`part_numbers` and `get_gear_ratios_pairs` cannot fail at runtime. -/
theorem queries_access_in_bounds (content : String)
    (tok : List Char → List (Nat × Nat)) (sym : Char → Bool) (s : EngineSchematic)
    (hb : EngineSchematic.build content (some tok) (some sym) = .ok s)
    (hlaw : LawfulTokenizer tok) :
    (∀ line_index, line_index < s.lines.length →
      ((line_index ≠ 0 → line_index - 1 < s.lines.length) ∧
        (line_index ≠ s.lines.length - 1 → line_index + 1 < s.lines.length) ∧
        ∀ m ∈ tok (s.lines.getD line_index []),
          m.1 < m.2 ∧ m.2 ≤ s.line_length ∧
          (get_match_boundary m s.line_length).1 ≤ m.1 ∧
          m.2 ≤ (get_match_boundary m s.line_length).2 ∧
          (get_match_boundary m s.line_length).1 + 1 ≤ s.line_length ∧
          (get_match_boundary m s.line_length).2 ≤ s.line_length)) ∧
    (∀ g, g < s.lines.length →
      (get_enclosing_lines_indices g s.lines.length).1 ≤ g ∧
      g ≤ (get_enclosing_lines_indices g s.lines.length).2 ∧
      (get_enclosing_lines_indices g s.lines.length).2 < s.lines.length) := by
  obtain ⟨_, h2, h3, _⟩ := EngineSchematic.build_ok hb
  have h0 : 0 < s.lines.length := List.length_pos.mpr h2
  constructor
  · intro li hli
    refine ⟨by omega, by omega, ?_⟩
    intro m hm
    have hmem : s.lines.getD li [] ∈ s.lines := by
      rw [List.getD_eq_getElem?_getD, List.getElem?_eq_getElem hli]
      exact List.getElem_mem hli
    have hrow : (s.lines.getD li []).length = s.line_length := h3 _ hmem
    obtain ⟨hm1, hm2⟩ := (hlaw (s.lines.getD li [])).2 m hm
    rw [hrow] at hm2
    unfold get_match_boundary
    dsimp only
    split_ifs <;> simp <;> omega
  · intro g hg
    unfold get_enclosing_lines_indices
    dsimp only
    split_ifs <;> omega

/-- Witness for `queries_access_in_bounds`: the gear band of row 0 of the
`"12*34"` schematic ends inside the grid. -/
theorem queries_access_in_bounds_witness :
    (get_enclosing_lines_indices 0 sampleSchematic2.lines.length).2 <
      sampleSchematic2.lines.length :=
  ((queries_access_in_bounds "12*34" digitRuns engineSymbol sampleSchematic2 rfl
    digitRuns_lawful).2 0 (by decide)).2.2

/-- C8 (amended): when the symbol pattern rejects every digit — as the
repository's `[^\.^\d]` does — an edge token's same-row check degenerates to
its sole in-bounds flank.  At `start = 0` the unclipped boundary makes the
left probe read the token's own first character (see
`same_row_check_reads_token_char` for why the digit-free side condition is
needed); that character is a digit, so the left probe contributes false and
the check equals the right probe.  Symmetrically at `end = width` the right
probe reads the token's last character and the check equals the left probe. -/
theorem edge_token_flank_amended (s : EngineSchematic) (sym : Char → Bool)
    (line_index : Nat) (line : List Char) (m : Nat × Nat)
    (hline : s.lines.getD line_index [] = line)
    (hlen : s.line_length = line.length)
    (hm : m ∈ digitRuns line)
    (hsym : ∀ c, c.isDigit = true → sym c = false) :
    (m.1 = 0 →
      isMatchIn sym (strSlice line (get_match_boundary m s.line_length).1
        ((get_match_boundary m s.line_length).1 + 1)) = false ∧
      s.line_of_match_has_symbol sym line_index (get_match_boundary m s.line_length) =
        isMatchIn sym (strSlice line ((get_match_boundary m s.line_length).2 - 1)
          (get_match_boundary m s.line_length).2)) ∧
    (m.2 = s.line_length →
      isMatchIn sym (strSlice line ((get_match_boundary m s.line_length).2 - 1)
        (get_match_boundary m s.line_length).2) = false ∧
      s.line_of_match_has_symbol sym line_index (get_match_boundary m s.line_length) =
        isMatchIn sym (strSlice line (get_match_boundary m s.line_length).1
          ((get_match_boundary m s.line_length).1 + 1))) := by
  obtain ⟨hm1, hm2⟩ := (digitRuns_lawful line).2 m hm
  constructor
  · intro hz
    have hb1 : (get_match_boundary m s.line_length).1 = 0 := by
      unfold get_match_boundary
      simp [hz]
    have hlt : 0 < line.length := by omega
    have hchar : (line.getD 0 ' ').isDigit = true := by
      have := digitRuns_digits line m hm m.1 (Nat.le_refl _) hm1
      rw [hz] at this
      exact this
    have hone : isMatchIn sym [line.getD 0 ' '] = sym (line.getD 0 ' ') := by
      simp [isMatchIn]
    have hleft : isMatchIn sym (strSlice line 0 (0 + 1)) = false := by
      rw [strSlice_singleton line 0 hlt, hone, hsym _ hchar]
    constructor
    · rw [hb1]
      exact hleft
    · unfold EngineSchematic.line_of_match_has_symbol
      dsimp only
      rw [hline, hb1, hleft, Bool.false_or]
  · intro he
    have hb2 : (get_match_boundary m s.line_length).2 = line.length := by
      unfold get_match_boundary
      simp [he, hlen]
    have hpos : 1 ≤ m.2 := by omega
    have hlt : line.length - 1 < line.length := by omega
    have hchar : (line.getD (line.length - 1) ' ').isDigit = true := by
      have := digitRuns_digits line m hm (m.2 - 1) (by omega) (by omega)
      rw [he, hlen] at this
      exact this
    have hone : isMatchIn sym [line.getD (line.length - 1) ' '] =
        sym (line.getD (line.length - 1) ' ') := by
      simp [isMatchIn]
    have hsing : strSlice line (line.length - 1) line.length =
        [line.getD (line.length - 1) ' '] := by
      have h2 := strSlice_singleton line (line.length - 1) hlt
      rw [(by omega : line.length - 1 + 1 = line.length)] at h2
      exact h2
    have hright : isMatchIn sym (strSlice line (line.length - 1) line.length) = false := by
      rw [hsing, hone, hsym _ hchar]
    constructor
    · rw [hb2]
      exact hright
    · unfold EngineSchematic.line_of_match_has_symbol
      dsimp only
      rw [hline, hb2, hright, Bool.or_false]

/-- Witness for `edge_token_flank_amended`: on the `"1*"` schematic the token
(0,1) starts at column 0 and its left probe contributes false under the
repository's symbol pattern. -/
theorem edge_token_flank_amended_witness :
    isMatchIn engineSymbol (strSlice (['1', '*'])
      (get_match_boundary (0, 1) sampleSchematic1.line_length).1
      ((get_match_boundary (0, 1) sampleSchematic1.line_length).1 + 1)) = false :=
  ((edge_token_flank_amended sampleSchematic1 engineSymbol 0 (['1', '*']) (0, 1) rfl rfl
    (by decide) digit_not_engine_symbol).1 rfl).1
